import Mathlib

/-!
Shallow embedding of the grid-variant sensor visualizer (`src/Graph.py`).

The Python program reads lines from a serial port on a background thread,
parses each comma-separated line of `GRID_ROWS * GRID_COLS` integers into a
2D grid (row-major reshape, as `np.array(values).reshape((GRID_ROWS, GRID_COLS))`),
enqueues valid grids, and a GUI timer callback drains the queue every 100 ms,
rendering the last drained frame (heatmap data + color limits + regenerated
3D surface), then redraws both canvases and reschedules itself.

Strings are modelled as `List Char`.  `str.strip` is `pyStrip`, `str.split(',')`
is `splitComma`, and Python's `int(...)` conversion (optional surrounding
whitespace, optional sign, decimal digits with single interior underscores)
is `pyInt`.
-/

set_option maxRecDepth 4000

-- Configuration constants from Graph.py.
def GRID_ROWS : Nat := 8
def GRID_COLS : Nat := 8
def num_expected_values : Nat := GRID_ROWS * GRID_COLS

-- Whitespace characters removed by Python's str.strip().
def isPySpace (c : Char) : Bool :=
  c = ' ' || c = '\t' || c = '\n' || c = '\r' || c = '\x0b' || c = '\x0c'

-- Remove leading whitespace (left half of str.strip()).
def stripL (cs : List Char) : List Char := cs.dropWhile isPySpace

-- Remove trailing whitespace (right half of str.strip()).
def stripR : List Char → List Char
  | [] => []
  | c :: cs => if stripR cs = [] then (if isPySpace c then [] else [c]) else c :: stripR cs

-- Python str.strip(): remove whitespace at both ends.
def pyStrip (cs : List Char) : List Char := stripR (stripL cs)

-- Helper for splitComma: prepend a character to the first token.
def consHead (c : Char) : List (List Char) → List (List Char)
  | [] => [[c]]
  | t :: ts => (c :: t) :: ts

-- Python str.split(','): always yields at least one token; empty tokens kept.
def splitComma : List Char → List (List Char)
  | [] => [[]]
  | c :: cs => if c = ',' then [] :: splitComma cs else consHead c (splitComma cs)

-- Apply a function to the first element of a token list.
def mapHead (f : List Char → List Char) : List (List Char) → List (List Char)
  | [] => []
  | t :: ts => f t :: ts

-- Apply a function to the last element of a token list.
def mapLast (f : List Char → List Char) : List (List Char) → List (List Char)
  | [] => []
  | [t] => [f t]
  | t :: t2 :: ts => t :: mapLast f (t2 :: ts)

-- Numeric value of an ASCII digit.
def digitVal (c : Char) : Nat := c.toNat - 48

-- Digits after the first one; Python allows single underscores between digits.
def pyDigitsRest (acc : Nat) : List Char → Option Nat
  | [] => some acc
  | c :: rest =>
    if c.isDigit then pyDigitsRest (acc * 10 + digitVal c) rest
    else if c = '_' then
      match rest with
      | [] => none
      | c2 :: rest2 => if c2.isDigit then pyDigitsRest (acc * 10 + digitVal c2) rest2 else none
    else none

-- An unsigned decimal integer literal: at least one digit.
def pyUnsigned : List Char → Option Nat
  | [] => none
  | c :: rest => if c.isDigit then pyDigitsRest (digitVal c) rest else none

-- Optionally signed integer literal (after stripping).
def pySigned : List Char → Option Int
  | [] => none
  | c :: rest =>
    if c = '+' then (pyUnsigned rest).map (fun n => (n : Int))
    else if c = '-' then (pyUnsigned rest).map (fun n => -(n : Int))
    else (pyUnsigned (c :: rest)).map (fun n => (n : Int))

-- Python's int(str): strips surrounding whitespace, then parses a signed literal.
def pyInt (cs : List Char) : Option Int := pySigned (pyStrip cs)

-- The list comprehension [int(v) for v in line.split(',')]: all tokens must parse.
def parseValues : List (List Char) → Option (List Int)
  | [] => some []
  | t :: ts =>
    match pyInt t with
    | none => none
    | some v =>
      match parseValues ts with
      | none => none
      | some vs => some (v :: vs)

-- np.array(values).reshape((rows, cols)): row-major rows of length cols.
def reshapeRows : Nat → Nat → List Int → List (List Int)
  | 0, _, _ => []
  | r + 1, cols, vs => vs.take cols :: reshapeRows r cols (vs.drop cols)

-- A parsed frame: the 2D grid enqueued on the data queue.
structure GridFrame where
  rows : List (List Int)
deriving DecidableEq

-- Outcome of processing one decoded line in read_from_serial.
inductive LineOutcome
  | frame (g : GridFrame)
  | countWarning (observed expected : Nat)
  | parseError
deriving DecidableEq

-- The body of the try-block on one decoded-and-stripped line:
-- parse all tokens, check the count, reshape on success.
def parseGridLine (cs : List Char) : LineOutcome :=
  match parseValues (splitComma cs) with
  | none => LineOutcome.parseError
  | some values =>
    if values.length = num_expected_values then
      LineOutcome.frame ⟨reshapeRows GRID_ROWS GRID_COLS values⟩
    else
      LineOutcome.countWarning values.length num_expected_values

-- Processing of a raw decoded line: Python first strips it, then parses.
def processDecoded (cs : List Char) : LineOutcome := parseGridLine (pyStrip cs)

-- Console output produced by the reader thread.
inductive LogEvent
  | connected
  | openFailure
  | countWarning (observed expected : Nat)
  | parseFailure (line : List Char)
deriving DecidableEq

-- The rendered warning string for a count mismatch.
def warningMessage (observed expected : Nat) : String :=
  "Warning: Received " ++ toString observed ++ " values, expected " ++
    toString expected ++ ". Ignoring line."

-- One serial read: either bytes that decode to a line, or a decode failure.
inductive ReadResult
  | ok (raw : List Char)
  | decodeFail
deriving DecidableEq

-- State of the reader thread: the Python local variable `line` (unbound at
-- thread start, holding the last successfully decoded line afterwards),
-- the shared data queue, and whether the thread is still running.
structure ReaderState where
  lastLine : Option (List Char)
  queue : List GridFrame
  alive : Bool
deriving DecidableEq

def initReader : ReaderState := { lastLine := none, queue := [], alive := true }

-- One iteration of the while-loop body in read_from_serial.
-- On a decode failure the except-handler formats f"Could not parse line: {line}...";
-- if `line` was never assigned this raises UnboundLocalError, which no sibling
-- except clause catches, killing the thread.
def readerStep (st : ReaderState) (r : ReadResult) : ReaderState × List LogEvent :=
  match r with
  | ReadResult.decodeFail =>
    match st.lastLine with
    | some stale => (st, [LogEvent.parseFailure stale])
    | none => ({ st with alive := false }, [])
  | ReadResult.ok raw =>
    match parseGridLine (pyStrip raw) with
    | LineOutcome.frame g =>
      ({ st with lastLine := some (pyStrip raw), queue := st.queue ++ [g] }, [])
    | LineOutcome.countWarning o e =>
      ({ st with lastLine := some (pyStrip raw) }, [LogEvent.countWarning o e])
    | LineOutcome.parseError =>
      ({ st with lastLine := some (pyStrip raw) }, [LogEvent.parseFailure (pyStrip raw)])

-- The reader loop over a finite trace of reads; stops consuming once dead.
def runReader : ReaderState → List ReadResult → ReaderState × List LogEvent
  | st, [] => (st, [])
  | st, r :: rs =>
    if st.alive then
      let p1 := readerStep st r
      let p2 := runReader p1.1 rs
      (p2.1, p1.2 ++ p2.2)
    else (st, [])

-- Whether serial.Serial(...) succeeded at startup.
inductive OpenResult
  | ok
  | fail
deriving DecidableEq

-- read_from_serial: on open failure, log the diagnostic and return at once
-- (no retry); otherwise log the connection banner and run the loop.
def read_from_serial (op : OpenResult) (reads : List ReadResult) :
    ReaderState × List LogEvent :=
  match op with
  | OpenResult.fail => ({ lastLine := none, queue := [], alive := false }, [LogEvent.openFailure])
  | OpenResult.ok =>
    let p := runReader initReader reads
    (p.1, LogEvent.connected :: p.2)

-- All cells of a frame (the flattened numpy array).
def gridCells (g : GridFrame) : List Int := g.rows.flatten

-- data.min() over the frame's cells.
def gridMin (g : GridFrame) : Int :=
  match gridCells g with
  | [] => 0
  | v :: vs => vs.foldl min v

-- data.max() over the frame's cells.
def gridMax (g : GridFrame) : Int :=
  match gridCells g with
  | [] => 0
  | v :: vs => vs.foldl max v

-- Rendered state of the two plots: heatmap image data, its color limits,
-- the surface last plotted on ax_3d (none before the first frame), and zlim.
structure PlotState where
  imData : GridFrame
  climMin : Int
  climMax : Int
  surface : Option GridFrame
  zlim : Int × Int
deriving DecidableEq

def zeros8x8 : GridFrame := ⟨List.replicate GRID_ROWS (List.replicate GRID_COLS 0)⟩

-- Initial plots: imshow(zeros, vmin=0, vmax=1023), empty 3D axes with zlim (0,1023).
def initPlotState : PlotState :=
  { imData := zeros8x8, climMin := 0, climMax := 1023, surface := none, zlim := (0, 1023) }

-- Rendering one drained frame: im.set_data, im.set_clim(data.min(), data.max()),
-- ax_3d.clear() followed by plot_surface of the same data and set_zlim(0,1023).
def applyFrame (_st : PlotState) (g : GridFrame) : PlotState :=
  { imData := g, climMin := gridMin g, climMax := gridMax g,
    surface := some g, zlim := (0, 1023) }

-- Side effects of one update_plots call visible outside the plot state.
inductive UIEvent
  | drawHeatmapCanvas
  | drawSurfaceCanvas
  | schedule (ms : Nat)
deriving DecidableEq

-- One consumer cycle: drain every queued frame in arrival order applying each,
-- then unconditionally redraw both canvases and reschedule after 100 ms.
-- Returns (new plot state, queue after the cycle, emitted UI events).
def update_plots (st : PlotState) (q : List GridFrame) :
    PlotState × List GridFrame × List UIEvent :=
  (q.foldl applyFrame st, [],
    [UIEvent.drawHeatmapCanvas, UIEvent.drawSurfaceCanvas, UIEvent.schedule 100])

-- Spec-side predicate for claim C10: a token that is an optionally signed
-- run of decimal digits, possibly surrounded by whitespace.
def isAsciiDigits (cs : List Char) : Bool := !cs.isEmpty && cs.all Char.isDigit

def isOptSignedDigits : List Char → Bool
  | [] => false
  | c :: rest =>
    if c = '+' then isAsciiDigits rest
    else if c = '-' then isAsciiDigits rest
    else isAsciiDigits (c :: rest)

def isWsOptSignedInt (cs : List Char) : Bool := isOptSignedDigits (pyStrip cs)

-- Concrete inputs used by the witnesses.
def line64 : List Char := '1' :: (List.replicate 63 [',', '1']).flatten

def line63 : List Char := '1' :: (List.replicate 62 [',', '1']).flatten

def lineNeg : List Char :=
  ['-', '5'] ++ (List.replicate 62 [',', '1']).flatten ++ [',', ' ', '7', ' ']

def gOnes : GridFrame := ⟨List.replicate GRID_ROWS (List.replicate GRID_COLS (1 : Int))⟩

def gWitness : GridFrame := ⟨[[3, 1], [2, 9]]⟩

-- Sanity examples (evaluate the embedding on concrete inputs).
example : pyInt (" -5 ".data) = some (-5) := by decide
example : pyInt ("1_0".data) = some 10 := by decide
example : pyInt ("1__0".data) = none := by decide
example : pyInt ("".data) = none := by decide
example : pyInt ("+7".data) = some 7 := by decide
example : pyInt ("- 5".data) = none := by decide
example : splitComma ("a,,b".data) = ["a".data, [], "b".data] := by decide
example : splitComma [] = [[]] := by decide
example : pyStrip ("  ab ".data) = "ab".data := by decide
example : (splitComma line64).length = 64 := by decide
example : processDecoded line63 = LineOutcome.countWarning 63 64 := by decide
example : (processDecoded lineNeg = LineOutcome.frame
    ⟨reshapeRows 8 8 ((-5) :: (List.replicate 62 (1 : Int) ++ [7]))⟩) := by decide

/-!
## Lemmas about stripping and splitting

These relate `pyStrip` (applied by the code to the whole decoded line) to the
per-token stripping done by Python's `int`, so that the parsing theorems can be
stated over the raw decoded line.
-/

theorem stripL_cons_pos (c : Char) (cs : List Char) (h : isPySpace c = true) :
    stripL (c :: cs) = stripL cs := by
  simp [stripL, List.dropWhile_cons, h]

theorem stripL_cons_neg (c : Char) (cs : List Char) (h : isPySpace c = false) :
    stripL (c :: cs) = c :: cs := by
  simp [stripL, List.dropWhile_cons, h]

theorem stripL_idem (cs : List Char) : stripL (stripL cs) = stripL cs := by
  induction cs with
  | nil => rfl
  | cons c cs ih =>
    by_cases h : isPySpace c = true
    · rw [stripL_cons_pos c cs h, ih]
    · have h2 : isPySpace c = false := by simpa using h
      rw [stripL_cons_neg c cs h2, stripL_cons_neg c cs h2]

theorem stripR_cons (c : Char) (cs : List Char) :
    stripR (c :: cs) =
      if stripR cs = [] then (if isPySpace c then [] else [c]) else c :: stripR cs := by
  simp only [stripR]

theorem stripR_nil_all_space (cs : List Char) (h : stripR cs = []) :
    ∀ x ∈ cs, isPySpace x = true := by
  induction cs with
  | nil => intro x hx; cases hx
  | cons c cs ih =>
    rw [stripR_cons] at h
    by_cases h1 : stripR cs = []
    · rw [if_pos h1] at h
      by_cases h2 : isPySpace c = true
      · intro x hx
        rcases List.mem_cons.mp hx with rfl | hx2
        · exact h2
        · exact ih h1 x hx2
      · rw [if_neg h2] at h; simp at h
    · rw [if_neg h1] at h; simp at h

theorem all_space_stripL_nil (cs : List Char) (h : ∀ x ∈ cs, isPySpace x = true) :
    stripL cs = [] := by
  induction cs with
  | nil => rfl
  | cons c cs ih =>
    rw [stripL_cons_pos c cs (h c (List.mem_cons_self c cs))]
    exact ih (fun x hx => h x (List.mem_cons_of_mem c hx))

theorem stripR_idem (cs : List Char) : stripR (stripR cs) = stripR cs := by
  induction cs with
  | nil => rfl
  | cons c cs ih =>
    rw [stripR_cons]
    by_cases h1 : stripR cs = []
    · rw [if_pos h1]
      by_cases h2 : isPySpace c = true
      · rw [if_pos h2]; rfl
      · rw [if_neg h2, stripR_cons]
        have hnil : stripR ([] : List Char) = [] := rfl
        rw [if_pos hnil, if_neg h2]
    · rw [if_neg h1, stripR_cons, ih, if_neg h1]

theorem stripL_stripR_comm (cs : List Char) : stripL (stripR cs) = stripR (stripL cs) := by
  induction cs with
  | nil => rfl
  | cons c cs ih =>
    by_cases hc : isPySpace c = true
    · rw [stripL_cons_pos c cs hc, stripR_cons]
      by_cases h1 : stripR cs = []
      · rw [if_pos h1, if_pos hc]
        have h2 : stripL cs = [] := all_space_stripL_nil cs (stripR_nil_all_space cs h1)
        rw [h2]
        rfl
      · rw [if_neg h1, stripL_cons_pos c (stripR cs) hc]
        exact ih
    · have hc2 : isPySpace c = false := by simpa using hc
      rw [stripL_cons_neg c cs hc2, stripR_cons]
      by_cases h1 : stripR cs = []
      · rw [if_pos h1, if_neg hc, stripL_cons_neg c [] hc2]
      · rw [if_neg h1, stripL_cons_neg c (stripR cs) hc2]

theorem consHead_ne_nil (c : Char) (l : List (List Char)) : consHead c l ≠ [] := by
  cases l <;> simp [consHead]

theorem splitComma_ne_nil (cs : List Char) : splitComma cs ≠ [] := by
  cases cs with
  | nil => simp [splitComma]
  | cons c cs =>
    simp only [splitComma]
    by_cases h : c = ','
    · simp [h]
    · rw [if_neg h]
      exact consHead_ne_nil c (splitComma cs)

theorem space_ne_comma {c : Char} (h : isPySpace c = true) : ¬(c = ',') := by
  intro hc
  subst hc
  exact absurd h (by decide)

theorem splitComma_comma (cs : List Char) :
    splitComma (',' :: cs) = [] :: splitComma cs := by
  simp [splitComma]

theorem splitComma_not_comma (c : Char) (cs : List Char) (h : ¬(c = ',')) :
    splitComma (c :: cs) = consHead c (splitComma cs) := by
  simp [splitComma, h]

theorem splitComma_no_comma (cs : List Char) (h : ∀ x ∈ cs, ¬(x = ',')) :
    splitComma cs = [cs] := by
  induction cs with
  | nil => rfl
  | cons c cs ih =>
    rw [splitComma_not_comma c cs (h c (List.mem_cons_self c cs)),
      ih (fun x hx => h x (List.mem_cons_of_mem c hx))]
    rfl

theorem splitComma_singleton (cs t : List Char) (h : splitComma cs = [t]) : cs = t := by
  induction cs generalizing t with
  | nil => simpa [splitComma] using h
  | cons c cs ih =>
    by_cases hc : c = ','
    · subst hc
      rw [splitComma_comma] at h
      injection h with h1 h2
      exact absurd h2 (splitComma_ne_nil cs)
    · rw [splitComma_not_comma c cs hc] at h
      obtain ⟨u, us, hu⟩ := List.exists_cons_of_ne_nil (splitComma_ne_nil cs)
      rw [hu] at h
      simp only [consHead] at h
      injection h with h1 h2
      subst h2
      rw [ih u hu]
      exact h1

theorem splitComma_stripL (cs : List Char) :
    splitComma (stripL cs) = mapHead stripL (splitComma cs) := by
  induction cs with
  | nil => rfl
  | cons c cs ih =>
    by_cases hc : isPySpace c = true
    · rw [stripL_cons_pos c cs hc, ih, splitComma_not_comma c cs (space_ne_comma hc)]
      obtain ⟨t, ts, hts⟩ := List.exists_cons_of_ne_nil (splitComma_ne_nil cs)
      rw [hts]
      simp only [consHead, mapHead]
      rw [stripL_cons_pos c t hc]
    · have hc2 : isPySpace c = false := by simpa using hc
      rw [stripL_cons_neg c cs hc2]
      by_cases hcm : c = ','
      · subst hcm
        rw [splitComma_comma]
        rfl
      · rw [splitComma_not_comma c cs hcm]
        obtain ⟨t, ts, hts⟩ := List.exists_cons_of_ne_nil (splitComma_ne_nil cs)
        rw [hts]
        simp only [consHead, mapHead]
        rw [stripL_cons_neg c t hc2]

theorem splitComma_stripR (cs : List Char) :
    splitComma (stripR cs) = mapLast stripR (splitComma cs) := by
  induction cs with
  | nil => rfl
  | cons c cs ih =>
    rw [stripR_cons]
    by_cases h1 : stripR cs = []
    · rw [if_pos h1]
      have hsp := stripR_nil_all_space cs h1
      have hcs : splitComma cs = [cs] :=
        splitComma_no_comma cs (fun x hx => space_ne_comma (hsp x hx))
      by_cases hc : isPySpace c = true
      · rw [if_pos hc, splitComma_not_comma c cs (space_ne_comma hc), hcs]
        simp only [consHead, mapLast, splitComma]
        rw [stripR_cons, if_pos h1, if_pos hc]
      · by_cases hcm : c = ','
        · subst hcm
          rw [if_neg hc, splitComma_comma, splitComma_comma, hcs]
          simp only [mapLast, splitComma, consHead]
          rw [h1]
        · rw [if_neg hc, splitComma_not_comma c cs hcm, hcs]
          simp only [consHead, mapLast]
          rw [splitComma_not_comma c [] hcm]
          simp only [splitComma, consHead]
          rw [stripR_cons, if_pos h1, if_neg hc]
    · rw [if_neg h1]
      by_cases hcm : c = ','
      · subst hcm
        rw [splitComma_comma, splitComma_comma, ih]
        obtain ⟨t, ts, hts⟩ := List.exists_cons_of_ne_nil (splitComma_ne_nil cs)
        rw [hts]
        cases ts with
        | nil => simp [mapLast]
        | cons u us => simp [mapLast]
      · rw [splitComma_not_comma c (stripR cs) hcm, ih, splitComma_not_comma c cs hcm]
        obtain ⟨t, ts, hts⟩ := List.exists_cons_of_ne_nil (splitComma_ne_nil cs)
        rw [hts]
        cases ts with
        | nil =>
          have hct : cs = t := splitComma_singleton cs t hts
          subst hct
          simp only [mapLast, consHead]
          rw [stripR_cons, if_neg h1]
        | cons u us => simp [consHead, mapLast]

theorem splitComma_pyStrip (cs : List Char) :
    splitComma (pyStrip cs) = mapLast stripR (mapHead stripL (splitComma cs)) := by
  show splitComma (stripR (stripL cs)) = _
  rw [splitComma_stripR, splitComma_stripL]

theorem pyInt_stripL (t : List Char) : pyInt (stripL t) = pyInt t := by
  show pySigned (stripR (stripL (stripL t))) = pySigned (stripR (stripL t))
  rw [stripL_idem]

theorem pyInt_stripR (t : List Char) : pyInt (stripR t) = pyInt t := by
  show pySigned (stripR (stripL (stripR t))) = pySigned (stripR (stripL t))
  rw [stripL_stripR_comm, stripR_idem]

theorem parseValues_mapHead (ts : List (List Char)) :
    parseValues (mapHead stripL ts) = parseValues ts := by
  cases ts with
  | nil => rfl
  | cons t ts => simp only [mapHead, parseValues, pyInt_stripL]

theorem parseValues_mapLast (ts : List (List Char)) :
    parseValues (mapLast stripR ts) = parseValues ts := by
  induction ts with
  | nil => rfl
  | cons t ts ih =>
    cases ts with
    | nil => simp only [mapLast, parseValues, pyInt_stripR]
    | cons u us =>
      simp only [mapLast, parseValues]
      rw [ih]
      rfl

theorem parseValues_pyStrip (cs : List Char) :
    parseValues (splitComma (pyStrip cs)) = parseValues (splitComma cs) := by
  rw [splitComma_pyStrip, parseValues_mapLast, parseValues_mapHead]

-- Stripping the decoded line before splitting does not change the parse outcome:
-- only the outer whitespace of the first and last token is removed, and Python's
-- int ignores it anyway.
theorem processDecoded_eq (cs : List Char) : processDecoded cs = parseGridLine cs := by
  show parseGridLine (pyStrip cs) = parseGridLine cs
  unfold parseGridLine
  rw [parseValues_pyStrip]

theorem parseValues_length (ts : List (List Char)) (vs : List Int)
    (h : parseValues ts = some vs) : vs.length = ts.length := by
  induction ts generalizing vs with
  | nil =>
    simp only [parseValues] at h
    injection h with h1
    rw [← h1]
    rfl
  | cons t ts ih =>
    simp only [parseValues] at h
    cases h1 : pyInt t with
    | none => rw [h1] at h; exact Option.noConfusion h
    | some v =>
      rw [h1] at h
      cases h2 : parseValues ts with
      | none => rw [h2] at h; exact Option.noConfusion h
      | some vs2 =>
        rw [h2] at h
        injection h with h3
        rw [← h3, List.length_cons, List.length_cons, ih vs2 h2]

theorem parseValues_isSome (ts : List (List Char)) :
    (parseValues ts).isSome = true ↔ ∀ t ∈ ts, (pyInt t).isSome = true := by
  induction ts with
  | nil => simp [parseValues]
  | cons t ts ih =>
    constructor
    · intro h x hx
      rcases List.mem_cons.mp hx with rfl | hx2
      · cases h1 : pyInt x with
        | some v => rfl
        | none => simp only [parseValues, h1] at h; exact Bool.noConfusion h
      · refine (ih.mp ?_) x hx2
        cases h2 : parseValues ts with
        | some vs => rfl
        | none =>
          cases h1 : pyInt t with
          | none => simp only [parseValues, h1] at h; exact Bool.noConfusion h
          | some v => simp only [parseValues, h1, h2] at h; exact Bool.noConfusion h
    · intro h
      obtain ⟨v, hv⟩ := Option.isSome_iff_exists.mp (h t (List.mem_cons_self t ts))
      obtain ⟨vs, hvs⟩ := Option.isSome_iff_exists.mp
        (ih.mpr (fun x hx => h x (List.mem_cons_of_mem t hx)))
      simp [parseValues, hv, hvs]

theorem parseGridLine_none (cs : List Char)
    (hv : parseValues (splitComma cs) = none) :
    parseGridLine cs = LineOutcome.parseError := by
  unfold parseGridLine
  rw [hv]

theorem parseGridLine_some (cs : List Char) (values : List Int)
    (hv : parseValues (splitComma cs) = some values) :
    parseGridLine cs =
      if values.length = num_expected_values then
        LineOutcome.frame ⟨reshapeRows GRID_ROWS GRID_COLS values⟩
      else LineOutcome.countWarning values.length num_expected_values := by
  unfold parseGridLine
  rw [hv]

-- The central parsing fact: a frame is produced iff the line splits into
-- exactly num_expected_values tokens, all parsing as integers.
theorem parseGridLine_frame_iff (cs : List Char) :
    (∃ g, parseGridLine cs = LineOutcome.frame g) ↔
      ((splitComma cs).length = num_expected_values ∧
        ∀ t ∈ splitComma cs, (pyInt t).isSome = true) := by
  constructor
  · rintro ⟨g, hg⟩
    cases h1 : parseValues (splitComma cs) with
    | none =>
      rw [parseGridLine_none cs h1] at hg
      exact LineOutcome.noConfusion hg
    | some values =>
      rw [parseGridLine_some cs values h1] at hg
      by_cases h2 : values.length = num_expected_values
      · refine ⟨?_, (parseValues_isSome (splitComma cs)).mp (by rw [h1]; rfl)⟩
        rw [← parseValues_length (splitComma cs) values h1]
        exact h2
      · rw [if_neg h2] at hg
        exact LineOutcome.noConfusion hg
  · rintro ⟨hlen, hall⟩
    obtain ⟨values, hv⟩ := Option.isSome_iff_exists.mp
      ((parseValues_isSome (splitComma cs)).mpr hall)
    have hvl : values.length = num_expected_values := by
      rw [parseValues_length (splitComma cs) values hv]
      exact hlen
    refine ⟨⟨reshapeRows GRID_ROWS GRID_COLS values⟩, ?_⟩
    rw [parseGridLine_some cs values hv, if_pos hvl]

-- Decomposition of a successful parse: the frame is the row-major reshape of
-- the parsed values, and exactly num_expected_values of them were parsed.
theorem frame_eq_reshape (cs : List Char) (g : GridFrame)
    (h : parseGridLine cs = LineOutcome.frame g) :
    ∃ values, parseValues (splitComma cs) = some values ∧
      values.length = num_expected_values ∧
      g = ⟨reshapeRows GRID_ROWS GRID_COLS values⟩ := by
  cases h1 : parseValues (splitComma cs) with
  | none =>
    rw [parseGridLine_none cs h1] at h
    exact LineOutcome.noConfusion h
  | some values =>
    rw [parseGridLine_some cs values h1] at h
    by_cases h2 : values.length = num_expected_values
    · rw [if_pos h2] at h
      injection h with h3
      exact ⟨values, rfl, h2, h3.symm⟩
    · rw [if_neg h2] at h
      exact LineOutcome.noConfusion h

/-!
## Reshape, min/max and token-shape lemmas
-/

theorem getD_take (n : Nat) : ∀ (c : Nat) (l : List Int), c < n →
    (l.take n).getD c 0 = l.getD c 0 := by
  induction n with
  | zero => intro c l h; exact absurd h (Nat.not_lt_zero c)
  | succ n ih =>
    intro c l h
    cases l with
    | nil => simp
    | cons x xs =>
      cases c with
      | zero => simp
      | succ c2 =>
        rw [List.take_succ_cons, List.getD_cons_succ, List.getD_cons_succ]
        exact ih c2 xs (Nat.lt_of_succ_lt_succ h)

theorem getD_drop (n : Nat) : ∀ (l : List Int) (c : Nat),
    (l.drop n).getD c 0 = l.getD (n + c) 0 := by
  induction n with
  | zero => intro l c; simp
  | succ n ih =>
    intro l c
    cases l with
    | nil => simp
    | cons x xs =>
      rw [List.drop_succ_cons, ih xs c]
      have h2 : n + 1 + c = (n + c) + 1 := by omega
      rw [h2, List.getD_cons_succ]

-- Row-major indexing law for the reshape.
theorem reshape_getD (rows cols : Nat) : ∀ (vs : List Int) (r c : Nat),
    r < rows → c < cols →
    ((reshapeRows rows cols vs).getD r []).getD c 0 = vs.getD (r * cols + c) 0 := by
  induction rows with
  | zero => intro vs r c hr _; exact absurd hr (Nat.not_lt_zero r)
  | succ rows ih =>
    intro vs r c hr hc
    cases r with
    | zero =>
      simp only [reshapeRows, List.getD_cons_zero]
      rw [getD_take cols c vs hc]
      simp
    | succ r2 =>
      simp only [reshapeRows, List.getD_cons_succ]
      rw [ih (vs.drop cols) r2 c (Nat.lt_of_succ_lt_succ hr) hc, getD_drop]
      congr 1
      ring

-- The reshape of rows*cols values is a rows-length list of cols-length rows.
theorem reshape_shape (rows cols : Nat) : ∀ (vs : List Int), vs.length = rows * cols →
    (reshapeRows rows cols vs).length = rows ∧
      ∀ row ∈ reshapeRows rows cols vs, row.length = cols := by
  induction rows with
  | zero => intro vs _; simp [reshapeRows]
  | succ rows ih =>
    intro vs h
    have hdrop : (vs.drop cols).length = rows * cols := by
      rw [List.length_drop, h, Nat.succ_mul]
      omega
    obtain ⟨ih1, ih2⟩ := ih (vs.drop cols) hdrop
    constructor
    · simp only [reshapeRows, List.length_cons, ih1]
    · intro row hrow
      simp only [reshapeRows, List.mem_cons] at hrow
      rcases hrow with rfl | hrow2
      · rw [List.length_take, h, Nat.succ_mul]
        omega
      · exact ih2 row hrow2

theorem foldl_min_le (vs : List Int) : ∀ a : Int, vs.foldl min a ≤ a := by
  induction vs with
  | nil => intro a; exact le_refl a
  | cons v vs ih =>
    intro a
    calc List.foldl min a (v :: vs) = List.foldl min (min a v) vs := rfl
    _ ≤ min a v := ih (min a v)
    _ ≤ a := min_le_left a v

theorem foldl_min_le_mem (vs : List Int) : ∀ (a v : Int), v ∈ vs → vs.foldl min a ≤ v := by
  induction vs with
  | nil => intro a v h; cases h
  | cons u vs ih =>
    intro a v h
    rcases List.mem_cons.mp h with rfl | h2
    · calc List.foldl min a (v :: vs) = List.foldl min (min a v) vs := rfl
      _ ≤ min a v := foldl_min_le vs (min a v)
      _ ≤ v := min_le_right a v
    · exact ih (min a u) v h2

theorem foldl_min_mem (vs : List Int) : ∀ a : Int,
    vs.foldl min a = a ∨ vs.foldl min a ∈ vs := by
  induction vs with
  | nil => intro a; left; rfl
  | cons v vs ih =>
    intro a
    rcases ih (min a v) with h | h
    · rcases min_choice a v with h2 | h2
      · left
        show List.foldl min (min a v) vs = a
        rw [h, h2]
      · right
        show List.foldl min (min a v) vs ∈ v :: vs
        rw [h, h2]
        exact List.mem_cons_self v vs
    · right
      exact List.mem_cons_of_mem v h

theorem foldl_max_ge (vs : List Int) : ∀ a : Int, a ≤ vs.foldl max a := by
  induction vs with
  | nil => intro a; exact le_refl a
  | cons v vs ih =>
    intro a
    calc a ≤ max a v := le_max_left a v
    _ ≤ List.foldl max (max a v) vs := ih (max a v)
    _ = List.foldl max a (v :: vs) := rfl

theorem foldl_max_ge_mem (vs : List Int) : ∀ (a v : Int), v ∈ vs → v ≤ vs.foldl max a := by
  induction vs with
  | nil => intro a v h; cases h
  | cons u vs ih =>
    intro a v h
    rcases List.mem_cons.mp h with rfl | h2
    · calc v ≤ max a v := le_max_right a v
      _ ≤ List.foldl max (max a v) vs := foldl_max_ge vs (max a v)
      _ = List.foldl max a (v :: vs) := rfl
    · exact ih (max a u) v h2

theorem foldl_max_mem (vs : List Int) : ∀ a : Int,
    vs.foldl max a = a ∨ vs.foldl max a ∈ vs := by
  induction vs with
  | nil => intro a; left; rfl
  | cons v vs ih =>
    intro a
    rcases ih (max a v) with h | h
    · rcases max_choice a v with h2 | h2
      · left
        show List.foldl max (max a v) vs = a
        rw [h, h2]
      · right
        show List.foldl max (max a v) vs ∈ v :: vs
        rw [h, h2]
        exact List.mem_cons_self v vs
    · right
      exact List.mem_cons_of_mem v h

theorem gridMin_mem (g : GridFrame) (h : gridCells g ≠ []) : gridMin g ∈ gridCells g := by
  obtain ⟨c, cs, hc⟩ := List.exists_cons_of_ne_nil h
  have h2 : gridMin g = cs.foldl min c := by
    unfold gridMin
    rw [hc]
  rw [h2, hc]
  rcases foldl_min_mem cs c with h3 | h3
  · rw [h3]; exact List.mem_cons_self c cs
  · exact List.mem_cons_of_mem c h3

theorem gridMin_le (g : GridFrame) (v : Int) (h : v ∈ gridCells g) : gridMin g ≤ v := by
  obtain ⟨c, cs, hc⟩ := List.exists_cons_of_ne_nil (List.ne_nil_of_mem h)
  have h2 : gridMin g = cs.foldl min c := by
    unfold gridMin
    rw [hc]
  rw [h2]
  rw [hc] at h
  rcases List.mem_cons.mp h with rfl | h3
  · exact foldl_min_le cs v
  · exact foldl_min_le_mem cs c v h3

theorem gridMax_mem (g : GridFrame) (h : gridCells g ≠ []) : gridMax g ∈ gridCells g := by
  obtain ⟨c, cs, hc⟩ := List.exists_cons_of_ne_nil h
  have h2 : gridMax g = cs.foldl max c := by
    unfold gridMax
    rw [hc]
  rw [h2, hc]
  rcases foldl_max_mem cs c with h3 | h3
  · rw [h3]; exact List.mem_cons_self c cs
  · exact List.mem_cons_of_mem c h3

theorem gridMax_ge (g : GridFrame) (v : Int) (h : v ∈ gridCells g) : v ≤ gridMax g := by
  obtain ⟨c, cs, hc⟩ := List.exists_cons_of_ne_nil (List.ne_nil_of_mem h)
  have h2 : gridMax g = cs.foldl max c := by
    unfold gridMax
    rw [hc]
  rw [h2]
  rw [hc] at h
  rcases List.mem_cons.mp h with rfl | h3
  · exact foldl_max_ge cs v
  · exact foldl_max_ge_mem cs c v h3

-- Digit-run and sign lemmas backing claim C10.
theorem pyDigitsRest_digit (acc : Nat) (c : Char) (rest : List Char) (h : c.isDigit = true) :
    pyDigitsRest acc (c :: rest) = pyDigitsRest (acc * 10 + digitVal c) rest := by
  cases rest with
  | nil => simp [pyDigitsRest, h]
  | cons c2 rest2 => simp [pyDigitsRest, h]

theorem pyDigitsRest_isSome (cs : List Char) : ∀ acc : Nat,
    cs.all Char.isDigit = true → (pyDigitsRest acc cs).isSome = true := by
  induction cs with
  | nil => intro acc _; rfl
  | cons c cs ih =>
    intro acc h
    rw [List.all_cons, Bool.and_eq_true] at h
    rw [pyDigitsRest_digit acc c cs h.1]
    exact ih (acc * 10 + digitVal c) h.2

theorem pyUnsigned_isSome (cs : List Char) (h : isAsciiDigits cs = true) :
    (pyUnsigned cs).isSome = true := by
  cases cs with
  | nil => simp [isAsciiDigits] at h
  | cons c cs =>
    unfold isAsciiDigits at h
    rw [Bool.and_eq_true, List.all_cons, Bool.and_eq_true] at h
    simp only [pyUnsigned]
    rw [if_pos h.2.1]
    exact pyDigitsRest_isSome cs (digitVal c) h.2.2

theorem pySigned_isSome (cs : List Char) (h : isOptSignedDigits cs = true) :
    (pySigned cs).isSome = true := by
  cases cs with
  | nil => simp [isOptSignedDigits] at h
  | cons c cs =>
    simp only [isOptSignedDigits] at h
    simp only [pySigned]
    by_cases h1 : c = '+'
    · rw [if_pos h1] at h ⊢
      obtain ⟨n, hn⟩ := Option.isSome_iff_exists.mp (pyUnsigned_isSome cs h)
      rw [hn]
      rfl
    · rw [if_neg h1] at h ⊢
      by_cases h2 : c = '-'
      · rw [if_pos h2] at h ⊢
        obtain ⟨n, hn⟩ := Option.isSome_iff_exists.mp (pyUnsigned_isSome cs h)
        rw [hn]
        rfl
      · rw [if_neg h2] at h ⊢
        obtain ⟨n, hn⟩ := Option.isSome_iff_exists.mp (pyUnsigned_isSome (c :: cs) h)
        rw [hn]
        rfl

theorem pyInt_isSome_of_ws (t : List Char) (h : isWsOptSignedInt t = true) :
    (pyInt t).isSome = true :=
  pySigned_isSome (pyStrip t) h

/-!
## Reduction helpers for readerStep and update_plots
-/

theorem readerStep_ok_frame (st : ReaderState) (raw : List Char) (g : GridFrame)
    (h : parseGridLine (pyStrip raw) = LineOutcome.frame g) :
    readerStep st (ReadResult.ok raw) =
      ({ st with lastLine := some (pyStrip raw), queue := st.queue ++ [g] }, []) := by
  simp only [readerStep]
  rw [h]

theorem readerStep_ok_warn (st : ReaderState) (raw : List Char) (o e : Nat)
    (h : parseGridLine (pyStrip raw) = LineOutcome.countWarning o e) :
    readerStep st (ReadResult.ok raw) =
      ({ st with lastLine := some (pyStrip raw) }, [LogEvent.countWarning o e]) := by
  simp only [readerStep]
  rw [h]

theorem readerStep_ok_err (st : ReaderState) (raw : List Char)
    (h : parseGridLine (pyStrip raw) = LineOutcome.parseError) :
    readerStep st (ReadResult.ok raw) =
      ({ st with lastLine := some (pyStrip raw) }, [LogEvent.parseFailure (pyStrip raw)]) := by
  simp only [readerStep]
  rw [h]

theorem update_plots_fst (st : PlotState) (q : List GridFrame) :
    (update_plots st q).1 = q.foldl applyFrame st := rfl

-- Only the last frame of a non-empty drain determines the rendered state.
theorem update_plots_last (st : PlotState) (q : List GridFrame) (g : GridFrame) :
    (update_plots st (q ++ [g])).1 = applyFrame initPlotState g := by
  rw [update_plots_fst, List.foldl_append]
  rfl

/-!
## Claim theorems
-/

/-- Claim C1: for every decoded input line, the grid parser produces a GridFrame
(and enqueues it) iff the line splits on commas into exactly
GRID_ROWS*GRID_COLS = 64 tokens and every token parses as an integer; a line
violating either condition produces no frame. -/
theorem c1_parse_frame_iff (st : ReaderState) (raw : List Char) :
    ((∃ g, processDecoded raw = LineOutcome.frame g) ↔
      ((splitComma raw).length = num_expected_values ∧
        ∀ t ∈ splitComma raw, (pyInt t).isSome = true)) ∧
    ∀ g, processDecoded raw = LineOutcome.frame g →
      (readerStep st (ReadResult.ok raw)).1.queue = st.queue ++ [g] := by
  constructor
  · rw [processDecoded_eq]
    exact parseGridLine_frame_iff raw
  · intro g hg
    rw [readerStep_ok_frame st raw g hg]

theorem c1_parse_frame_iff_witness :
    ∃ g, processDecoded line64 = LineOutcome.frame g ∧
      (readerStep initReader (ReadResult.ok line64)).1.queue = initReader.queue ++ [g] := by
  obtain ⟨g, hg⟩ := (c1_parse_frame_iff initReader line64).1.mpr (by decide)
  exact ⟨g, hg, (c1_parse_frame_iff initReader line64).2 g hg⟩

/-- Claim C2: for every valid line whose 64 integer tokens are v0..v63 in wire
order, the produced GridFrame's cell at (row r, col c) equals v[r*GRID_COLS+c]
for all r < 8 and c < 8 (row-major reshape). -/
theorem c2_row_major (raw : List Char) (values : List Int) (g : GridFrame) (r c : Nat)
    (hv : parseValues (splitComma raw) = some values)
    (hg : processDecoded raw = LineOutcome.frame g)
    (hr : r < GRID_ROWS) (hc : c < GRID_COLS) :
    (g.rows.getD r []).getD c 0 = values.getD (r * GRID_COLS + c) 0 := by
  rw [processDecoded_eq] at hg
  obtain ⟨values2, hv2, hlen2, hg2⟩ := frame_eq_reshape raw g hg
  rw [hv] at hv2
  injection hv2 with h3
  subst h3
  rw [hg2]
  exact reshape_getD GRID_ROWS GRID_COLS values r c hr hc

theorem c2_row_major_witness :
    (gOnes.rows.getD 2 []).getD 3 0 = (List.replicate 64 (1 : Int)).getD (2 * GRID_COLS + 3) 0 :=
  c2_row_major line64 (List.replicate 64 1) gOnes 2 3 (by decide) (by decide)
    (by decide) (by decide)

/-- Claim C3: a consumer cycle that drains frames q ++ [f] leaves the heatmap
data and the 3D surface equal to the last frame f, empties the queue, and the
resulting plot state carries no trace of the earlier frames or prior state. -/
theorem c3_drain_renders_last (stA stB : PlotState) (q : List GridFrame) (f : GridFrame) :
    (update_plots stA (q ++ [f])).1.imData = f ∧
    (update_plots stA (q ++ [f])).1.surface = some f ∧
    (update_plots stA (q ++ [f])).2.1 = [] ∧
    (update_plots stA (q ++ [f])).1 = (update_plots stB [f]).1 := by
  rw [update_plots_last stA q f]
  exact ⟨rfl, rfl, rfl, rfl⟩

/-- Claim C4: after a cycle renders frame g, the heatmap's color-range minimum
and maximum are exactly the minimum and maximum cell values of g. -/
theorem c4_clim_autoscale (st : PlotState) (q : List GridFrame) (g : GridFrame)
    (h : gridCells g ≠ []) :
    (update_plots st (q ++ [g])).1.climMin ∈ gridCells g ∧
    (update_plots st (q ++ [g])).1.climMax ∈ gridCells g ∧
    ∀ v ∈ gridCells g, (update_plots st (q ++ [g])).1.climMin ≤ v ∧
      v ≤ (update_plots st (q ++ [g])).1.climMax := by
  rw [update_plots_last st q g]
  refine ⟨gridMin_mem g h, gridMax_mem g h, ?_⟩
  intro v hv
  exact ⟨gridMin_le g v hv, gridMax_ge g v hv⟩

theorem c4_clim_autoscale_witness :
    (update_plots initPlotState ([] ++ [gWitness])).1.climMin ∈ gridCells gWitness ∧
    (update_plots initPlotState ([] ++ [gWitness])).1.climMax ∈ gridCells gWitness ∧
    ∀ v ∈ gridCells gWitness,
      (update_plots initPlotState ([] ++ [gWitness])).1.climMin ≤ v ∧
        v ≤ (update_plots initPlotState ([] ++ [gWitness])).1.climMax :=
  c4_clim_autoscale initPlotState [] gWitness (by decide)

/-- Claim C5: every frame that enters the queue is a fully valid 8x8 grid of
integers, and a rejected line leaves the queue unchanged. -/
theorem c5_queue_invariant (st : ReaderState) (raw : List Char) :
    (∀ g, processDecoded raw = LineOutcome.frame g →
      (readerStep st (ReadResult.ok raw)).1.queue = st.queue ++ [g] ∧
      g.rows.length = GRID_ROWS ∧ ∀ row ∈ g.rows, row.length = GRID_COLS) ∧
    ((∀ g, processDecoded raw ≠ LineOutcome.frame g) →
      (readerStep st (ReadResult.ok raw)).1.queue = st.queue) := by
  constructor
  · intro g hg
    have hg2 : parseGridLine (pyStrip raw) = LineOutcome.frame g := hg
    refine ⟨by rw [readerStep_ok_frame st raw g hg2], ?_⟩
    obtain ⟨values, hv, hlen, hgr⟩ := frame_eq_reshape (pyStrip raw) g hg2
    rw [hgr]
    exact reshape_shape GRID_ROWS GRID_COLS values hlen
  · intro hne
    cases hpd : parseGridLine (pyStrip raw) with
    | frame g => exact absurd hpd (hne g)
    | countWarning o e => rw [readerStep_ok_warn st raw o e hpd]
    | parseError => rw [readerStep_ok_err st raw hpd]

theorem c5_queue_invariant_witness :
    (readerStep initReader (ReadResult.ok line64)).1.queue = initReader.queue ++ [gOnes] ∧
    gOnes.rows.length = GRID_ROWS ∧ ∀ row ∈ gOnes.rows, row.length = GRID_COLS :=
  (c5_queue_invariant initReader line64).1 gOnes (by decide)

/-- Claim C6: a line of integer tokens whose count is 63 rather than 64 is
dropped with the queue unchanged, and the logged warning names both the
observed count 63 and the expected count 64. -/
theorem c6_count_mismatch (st : ReaderState) (raw : List Char)
    (hall : ∀ t ∈ splitComma raw, (pyInt t).isSome = true)
    (hlen : (splitComma raw).length = 63) :
    (readerStep st (ReadResult.ok raw)).1.queue = st.queue ∧
    (readerStep st (ReadResult.ok raw)).2 = [LogEvent.countWarning 63 num_expected_values] ∧
    warningMessage 63 num_expected_values =
      "Warning: Received 63 values, expected 64. Ignoring line." := by
  obtain ⟨values, hv⟩ := Option.isSome_iff_exists.mp
    ((parseValues_isSome (splitComma raw)).mpr hall)
  have hvl : values.length = 63 := by
    rw [parseValues_length (splitComma raw) values hv]
    exact hlen
  have hpd : parseGridLine (pyStrip raw) = LineOutcome.countWarning 63 num_expected_values := by
    have h1 : parseGridLine raw = LineOutcome.countWarning 63 num_expected_values := by
      rw [parseGridLine_some raw values hv, if_neg (by rw [hvl]; decide), hvl]
    calc parseGridLine (pyStrip raw) = processDecoded raw := rfl
    _ = parseGridLine raw := processDecoded_eq raw
    _ = _ := h1
  rw [readerStep_ok_warn st raw 63 num_expected_values hpd]
  exact ⟨rfl, rfl, rfl⟩

theorem c6_count_mismatch_witness :
    (readerStep initReader (ReadResult.ok line63)).1.queue = initReader.queue ∧
    (readerStep initReader (ReadResult.ok line63)).2 =
      [LogEvent.countWarning 63 num_expected_values] ∧
    warningMessage 63 num_expected_values =
      "Warning: Received 63 values, expected 64. Ignoring line." :=
  c6_count_mismatch initReader line63 (by decide) (by decide)

/-- Claim C7 (code bug): a decode failure on the very first read kills the
reader thread (the except handler references the unassigned local `line`),
while a decode failure after a successful read is recovered and the loop
continues, logging the stale line. -/
theorem c7_first_decode_fatal :
    (readerStep initReader ReadResult.decodeFail).1.alive = false ∧
    (readerStep initReader ReadResult.decodeFail).2 = [] ∧
    (readerStep { lastLine := some [], queue := [], alive := true }
        ReadResult.decodeFail).1.alive = true ∧
    (readerStep { lastLine := some [], queue := [], alive := true }
        ReadResult.decodeFail).2 = [LogEvent.parseFailure []] :=
  ⟨rfl, rfl, rfl, rfl⟩

/-- Claim C8: if the serial port cannot be opened, read_from_serial logs the
diagnostic and returns immediately; whatever reads would have followed, the
queue stays empty and the reader is no longer alive (no retry). -/
theorem c8_open_failure_starves (reads : List ReadResult) :
    (read_from_serial OpenResult.fail reads).1.queue = [] ∧
    (read_from_serial OpenResult.fail reads).1.alive = false ∧
    (read_from_serial OpenResult.fail reads).2 = [LogEvent.openFailure] :=
  ⟨rfl, rfl, rfl⟩

/-- Claim C9 counterexample: on a cycle that begins with an empty queue the
claim says no redraw is performed, but update_plots emits both canvas draw
events unconditionally. -/
theorem c9_empty_queue_redraws :
    UIEvent.drawHeatmapCanvas ∈ (update_plots initPlotState []).2.2 ∧
    UIEvent.drawSurfaceCanvas ∈ (update_plots initPlotState []).2.2 := by
  exact ⟨List.mem_cons_self _ _, List.mem_cons_of_mem _ (List.mem_cons_self _ _)⟩

/-- Claim C9 (amended): a cycle that begins with an empty queue leaves the
heatmap, its color range and the 3D surface state unchanged and reschedules
itself for 100 ms later, but it still redraws both canvases. -/
theorem c9_empty_cycle (st : PlotState) :
    (update_plots st []).1 = st ∧
    (update_plots st []).2.1 = [] ∧
    (update_plots st []).2.2 =
      [UIEvent.drawHeatmapCanvas, UIEvent.drawSurfaceCanvas, UIEvent.schedule 100] :=
  ⟨rfl, rfl, rfl⟩

/-- Claim C10: the parser accepts optionally signed integers with surrounding
whitespace as tokens, so a 64-token line of such tokens yields a frame, and a
frame can contain negative cell values. -/
theorem c10_signed_tokens (raw : List Char)
    (hlen : (splitComma raw).length = num_expected_values)
    (hall : ∀ t ∈ splitComma raw, isWsOptSignedInt t = true) :
    (∃ g, processDecoded raw = LineOutcome.frame g) ∧
    (∃ g, processDecoded lineNeg = LineOutcome.frame g ∧ (-5 : Int) ∈ gridCells g) := by
  constructor
  · rw [processDecoded_eq]
    exact (parseGridLine_frame_iff raw).mpr
      ⟨hlen, fun t ht => pyInt_isSome_of_ws t (hall t ht)⟩
  · refine ⟨⟨reshapeRows 8 8 ((-5) :: (List.replicate 62 (1 : Int) ++ [7]))⟩, ?_, ?_⟩
    · decide
    · decide

theorem c10_signed_tokens_witness :
    ∃ g, processDecoded lineNeg = LineOutcome.frame g :=
  (c10_signed_tokens lineNeg (by decide) (by decide)).1
